import Mathlib

/-!
Verification development for the PIR context and encoding core
(`pir/cpp/context.cpp` and the string codec exercised by
`pir/cpp/string_encoder_test.cpp`).

The context layer is translated from `context.cpp`.  The cryptographic
backend (SEAL) and the `StringEncoder` implementation are not part of the
provided sources, so they are modelled from the specification, as
documented on each such definition.
-/

namespace PIR

/-! ## Error model

Translated from `context.cpp`: the only error kind produced by this layer
is `InvalidArgumentError` from `util/canonical_errors.h`, carrying the
backend's fault message. -/

/-- The typed error surfaced by every public operation of the core. -/
inductive PirError where
  | invalidArgument (msg : String)
deriving DecidableEq, Repr

/-- The `StatusOr<T>` result type: a typed success-or-failure value. -/
abbrev StatusOr (α : Type) := Except PirError α

/-- Modelled from the spec: a fault thrown by the cryptographic backend
(`std::exception`), with its `what()` message. -/
structure SealException where
  what : String
deriving DecidableEq, Repr

/-- The result of a backend call, which may throw. -/
abbrev SealResult (α : Type) := Except SealException α

/-! ## Bit-level primitives of the string codec -/

/-- Modelled from the spec: the low-to-high list of the `w` low bits of a
natural number, used to stream a byte (or a packed coefficient) as a bit
sequence.  Only `n % 2 ^ w` is represented. -/
def bitsOfNat : Nat → Nat → List Bool
  | 0, _ => []
  | w + 1, n => (n % 2 == 1) :: bitsOfNat w (n / 2)

/-- Modelled from the spec: reassemble a bit list (low bit first) into the
natural number it denotes. -/
def natOfBits : List Bool → Nat
  | [] => 0
  | b :: bs => (if b then 1 else 0) + 2 * natOfBits bs

/-- Modelled from the spec: split a bit stream into consecutive groups of
`k` bits, zero-padding the final partial group.  The codec packs the
input's bits sequentially, a fixed number per coefficient, earliest bits
into the earliest coefficients. -/
def chunkPad : Nat → List Bool → List (List Bool)
  | _, [] => []
  | 0, _ :: _ => []
  | k + 1, x :: xs =>
    ((x :: xs).take (k + 1) ++ List.replicate (k + 1 - (x :: xs).length) false)
      :: chunkPad (k + 1) ((x :: xs).drop (k + 1))
termination_by _ l => l.length
decreasing_by simp; omega

/-! ## The string codec

`string_encoder.cpp` is not among the provided sources (only its test
`string_encoder_test.cpp` is), so the codec is modelled from the spec,
section 4.2. -/

/-- A plaintext polynomial: its list of coefficient slots. -/
abbrev Plaintext := List Nat

/-- Modelled from the spec: the string codec, parameterized by the scheme's
coefficient capacity (the ring degree) and the per-coefficient packing
width (19 bits for a modulus with ~20 bits of precision). -/
structure StringEncoder where
  polyModulusDegree : Nat
  bitsPerCoeff : Nat
deriving DecidableEq, Repr

/-- Modelled from the spec: required coefficient count for an `len`-byte
string, `ceil(len * 8 / B)` — written with natural division as
`(len * 8 + (B - 1)) / B`. -/
def StringEncoder.numCoeffRequired (e : StringEncoder) (len : Nat) : Nat :=
  (len * 8 + (e.bitsPerCoeff - 1)) / e.bitsPerCoeff

/-- Modelled from the spec: encode a byte string into one plaintext.
Fails with `InvalidArgument` if the required coefficient count exceeds the
ring degree; otherwise packs the string's bits sequentially,
`bitsPerCoeff` bits per coefficient. -/
def StringEncoder.encode (e : StringEncoder) (s : List Nat) : StatusOr Plaintext :=
  if e.numCoeffRequired s.length ≤ e.polyModulusDegree then
    .ok ((chunkPad e.bitsPerCoeff (s.flatMap (bitsOfNat 8))).map natOfBits)
  else
    .error (.invalidArgument "string too large to fit in plaintext")

/-- Modelled from the spec: decode reverses the packing, reading
`bitsPerCoeff` bits from each coefficient and regrouping them into bytes;
trailing bytes beyond the original payload are zero-filled. -/
def StringEncoder.decode (e : StringEncoder) (pt : Plaintext) : List Nat :=
  (chunkPad 8 (pt.flatMap (bitsOfNat e.bitsPerCoeff))).map natOfBits

/-! ## Scheme parameters, keys and cryptographic objects -/

/-- Modelled from the spec: `seal::EncryptionParameters` for the BFV
scheme — ring degree, plaintext modulus and ciphertext modulus chain. -/
structure EncryptionParameters where
  polyModulusDegree : Nat
  plainModulus : Nat
  coeffModulus : List Nat
deriving DecidableEq, Repr

/-- Modelled from the spec: `seal::PlainModulus::Batching(degree, bits)`
picks a backend-defined prime congruent to 1 modulo `2 * degree` with the
requested bit length.  The embedding fixes the deterministic
representative `2 * degree * (2 ^ (bits - 1) / (2 * degree)) + 1`;
no claim depends on the numeric value. -/
def plainModulusBatching (degree bits : Nat) : Nat :=
  2 * degree * (2 ^ (bits - 1) / (2 * degree)) + 1

/-- Modelled from the spec: `seal::CoeffModulus::BFVDefault(degree)`, the
scheme-default ciphertext modulus chain sized to the ring degree; its
contents are backend-defined and opaque to this core. -/
def coeffModulusBFVDefault (degree : Nat) : List Nat :=
  [degree]

/-- Translated from `PIRContext::generateEncryptionParams` in
`context.cpp`: default parameters at ring degree 4096 with a plaintext
modulus supporting batching at 20 bits. -/
def generateEncryptionParams (polyModulusDegree : Nat := 4096) :
    EncryptionParameters :=
  { polyModulusDegree := polyModulusDegree
    plainModulus := plainModulusBatching polyModulusDegree 20
    coeffModulus := coeffModulusBFVDefault polyModulusDegree }

/-- Modelled from the spec: a public key, usable to encrypt; abstracted to
the parameter set it was generated against. -/
structure PublicKey where
  parms : EncryptionParameters
deriving DecidableEq, Repr

/-- Modelled from the spec: a secret key, usable to decrypt; abstracted to
the parameter set it was generated against. -/
structure SecretKey where
  parms : EncryptionParameters
deriving DecidableEq, Repr

/-- A key pair as produced by `seal::KeyGenerator`. -/
structure KeyPair where
  publicKey : PublicKey
  secretKey : SecretKey
deriving DecidableEq, Repr

/-- Modelled from the spec: `seal::KeyGenerator` — fresh random key
material is not representable in a deterministic embedding; keys are
abstracted to the parameter set they are generated against. -/
def keyGen (parms : EncryptionParameters) : KeyPair :=
  ⟨⟨parms⟩, ⟨parms⟩⟩

/-- Modelled from the spec: a ciphertext is opaque and only valid relative
to the exact parameters that produced it. -/
structure Ciphertext where
  parms : EncryptionParameters
  payload : Plaintext
deriving DecidableEq, Repr

/-- Modelled from the spec: the opaque ciphertext byte blob crossing the
network boundary.  A parseable blob records the parameter set it was
produced under and the encrypted payload; any other byte sequence is the
`malformed` case. -/
inductive CiphertextBlob where
  | ct (parms : EncryptionParameters) (payload : Plaintext)
  | malformed (msg : String)
deriving DecidableEq, Repr

/-- Modelled from the spec: the opaque parameter byte blob produced by
`SerializeParameters`; bytes that do not parse as a parameter set are the
`malformed` case. -/
inductive ParamsBlob where
  | wellFormed (parms : EncryptionParameters)
  | malformed (msg : String)
deriving DecidableEq, Repr

/-! ## The modelled backend operations (SEAL)

SEAL is an external dependency, not among the provided sources; each
operation is modelled from the specification as an exception-raising
call. -/

/-- Modelled from the spec: `seal::BatchEncoder::encode` batch-packs up to
`ring_degree` integers, one per coefficient slot, each reduced mod the
plaintext modulus; it throws on an empty or oversized vector. -/
def sealBatchEncode (parms : EncryptionParameters) (v : List Nat) :
    SealResult Plaintext :=
  if v.isEmpty then
    .error ⟨"input vector is empty"⟩
  else if parms.polyModulusDegree < v.length then
    .error ⟨"values_matrix size is too large"⟩
  else
    .ok (v.map (· % parms.plainModulus))

/-- Modelled from the spec: `seal::BatchEncoder::decode`, the inverse of
the batch encoding — it reads the coefficient slots back. -/
def sealBatchDecode (_parms : EncryptionParameters) (pt : Plaintext) :
    SealResult (List Nat) :=
  .ok pt

/-- Modelled from the spec: `seal::Encryptor::encrypt` under a public key
ties the ciphertext to the key's parameter set. -/
def sealEncrypt (pk : PublicKey) (pt : Plaintext) : SealResult Ciphertext :=
  .ok ⟨pk.parms, pt⟩

/-- Modelled from the spec: `seal::Decryptor::decrypt` — decryption under
the matching secret key recovers the plaintext; a ciphertext from a
different parameter set throws. -/
def sealDecrypt (sk : SecretKey) (ct : Ciphertext) : SealResult Plaintext :=
  if ct.parms = sk.parms then .ok ct.payload
  else .error ⟨"ciphertext is not valid for encryption parameters"⟩

/-- Modelled from the spec: `seal::Ciphertext::save` writes the opaque
blob. -/
def sealCiphertextSave (ct : Ciphertext) : SealResult CiphertextBlob :=
  .ok (.ct ct.parms ct.payload)

/-- Modelled from the spec: `seal::Ciphertext::load` against a context
throws if the blob does not parse or was produced under a different
parameter set than the context's. -/
def sealCiphertextLoad (parms : EncryptionParameters) (blob : CiphertextBlob) :
    SealResult Ciphertext :=
  match blob with
  | .malformed msg => .error ⟨msg⟩
  | .ct bparms payload =>
    if bparms = parms then .ok ⟨bparms, payload⟩
    else .error ⟨"ciphertext data is invalid for encryption parameters"⟩

/-- Modelled from the spec: `seal::EncryptionParameters::save`. -/
def sealParamsSave (parms : EncryptionParameters) : SealResult ParamsBlob :=
  .ok (.wellFormed parms)

/-- Modelled from the spec: `seal::EncryptionParameters::load` throws on
malformed or structurally inconsistent bytes (checksum/format mismatch). -/
def sealParamsLoad (blob : ParamsBlob) : SealResult EncryptionParameters :=
  match blob with
  | .wellFormed parms => .ok parms
  | .malformed msg => .error ⟨msg⟩

/-! ## The context layer, translated from `context.cpp` -/

/-- Translated from `serializeParams` in `context.cpp`: wraps the backend
save in a catch that converts any thrown fault into `InvalidArgument`. -/
def serializeParams (parms : EncryptionParameters) : StatusOr ParamsBlob :=
  match sealParamsSave parms with
  | .error e => .error (.invalidArgument e.what)
  | .ok blob => .ok blob

/-- Translated from `deserializeParams` in `context.cpp`: wraps the
backend load in a catch. -/
def deserializeParams (input : ParamsBlob) : StatusOr EncryptionParameters :=
  match sealParamsLoad input with
  | .error e => .error (.invalidArgument e.what)
  | .ok parms => .ok parms

/-- The state owned by a `PIRContext`: parameters, key pair and the
recorded database size (the derived operator objects are functions of the
parameters and keys). -/
structure PIRContext where
  parms : EncryptionParameters
  publicKey : PublicKey
  secretKey : SecretKey
  databaseSize : Nat
deriving DecidableEq, Repr

/-- Translated from the `PIRContext` constructor: store the parameters and
the database size, generate a fresh key pair against the parameters and
build the derived operator objects. -/
def PIRContext.init (parms : EncryptionParameters) (dbSize : Nat) :
    PIRContext :=
  { parms := parms
    publicKey := (keyGen parms).publicKey
    secretKey := (keyGen parms).secretKey
    databaseSize := dbSize }

/-- Translated from `PIRContext::Create`. -/
def PIRContext.Create (dbSize : Nat) : PIRContext :=
  PIRContext.init (generateEncryptionParams 4096) dbSize

/-- Translated from `PIRContext::CreateFromParams`: deserialize the
parameters, propagating a failure unchanged, then construct. -/
def PIRContext.CreateFromParams (parmsBlob : ParamsBlob) (dbSize : Nat) :
    StatusOr PIRContext :=
  match deserializeParams parmsBlob with
  | .error st => .error st
  | .ok parms => .ok (PIRContext.init parms dbSize)

/-- Translated from `PIRContext::Encode`: the backend batch encode inside
a catch converting a thrown fault to `InvalidArgument`. -/
def PIRContext.Encode (ctx : PIRContext) (v : List Nat) : StatusOr Plaintext :=
  match sealBatchEncode ctx.parms v with
  | .error e => .error (.invalidArgument e.what)
  | .ok pt => .ok pt

/-- Translated from `PIRContext::Decode`: the backend batch decode inside
a catch. -/
def PIRContext.Decode (ctx : PIRContext) (pt : Plaintext) :
    StatusOr (List Nat) :=
  match sealBatchDecode ctx.parms pt with
  | .error e => .error (.invalidArgument e.what)
  | .ok v => .ok v

/-- Translated from `PIRContext::Serialize`: `ciphertext.save` inside a
catch. -/
def PIRContext.Serialize (_ctx : PIRContext) (ct : Ciphertext) :
    StatusOr CiphertextBlob :=
  match sealCiphertextSave ct with
  | .error e => .error (.invalidArgument e.what)
  | .ok blob => .ok blob

/-- Translated from `PIRContext::Deserialize`: `ciphertext.load` against
this context inside a catch. -/
def PIRContext.Deserialize (ctx : PIRContext) (input : CiphertextBlob) :
    StatusOr Ciphertext :=
  match sealCiphertextLoad ctx.parms input with
  | .error e => .error (.invalidArgument e.what)
  | .ok ct => .ok ct

/-- Translated from `PIRContext::Encrypt`: `Encode`, then the caught
`encryptor_->encrypt` call, then `Serialize`; each failure returns
immediately. -/
def PIRContext.Encrypt (ctx : PIRContext) (v : List Nat) :
    StatusOr CiphertextBlob :=
  match ctx.Encode v with
  | .error st => .error st
  | .ok pt =>
    match sealEncrypt ctx.publicKey pt with
    | .error e => .error (.invalidArgument e.what)
    | .ok ct => ctx.Serialize ct

/-- Translated from `PIRContext::Decrypt`: `Deserialize`, then the caught
`decryptor_->decrypt` call, then `Decode`; each failure returns
immediately. -/
def PIRContext.Decrypt (ctx : PIRContext) (input : CiphertextBlob) :
    StatusOr (List Nat) :=
  match ctx.Deserialize input with
  | .error st => .error st
  | .ok ct =>
    match sealDecrypt ctx.secretKey ct with
    | .error e => .error (.invalidArgument e.what)
    | .ok pt => ctx.Decode pt

/-- Translated from `PIRContext::SerializeParams`. -/
def PIRContext.SerializeParams (ctx : PIRContext) : StatusOr ParamsBlob :=
  serializeParams ctx.parms

/-- Translated from `PIRContext::DBSize`. -/
def PIRContext.DBSize (ctx : PIRContext) : Nat :=
  ctx.databaseSize

/-! ## Stage decomposition, for the refinement claim -/

/-- The encryption stage of `Encrypt` in isolation: the try/catch-wrapped
`encryptor_->encrypt` call. -/
def PIRContext.encryptStep (ctx : PIRContext) (pt : Plaintext) :
    StatusOr Ciphertext :=
  match sealEncrypt ctx.publicKey pt with
  | .error e => .error (.invalidArgument e.what)
  | .ok ct => .ok ct

/-- The decryption stage of `Decrypt` in isolation: the try/catch-wrapped
`decryptor_->decrypt` call. -/
def PIRContext.decryptStep (ctx : PIRContext) (ct : Ciphertext) :
    StatusOr Plaintext :=
  match sealDecrypt ctx.secretKey ct with
  | .error e => .error (.invalidArgument e.what)
  | .ok pt => .ok pt

/-- Stated from the spec's words, for the refinement claim: `Encrypt`
composes `Encode`, then an encryption step, then `Serialize`, with
monadic short-circuiting. -/
def PIRContext.EncryptSpec (ctx : PIRContext) (v : List Nat) :
    StatusOr CiphertextBlob :=
  ctx.Encode v >>= fun pt => ctx.encryptStep pt >>= fun ct => ctx.Serialize ct

/-- Stated from the spec's words, for the refinement claim: `Decrypt`
composes `Deserialize`, then a decryption step, then `Decode`, with
monadic short-circuiting. -/
def PIRContext.DecryptSpec (ctx : PIRContext) (input : CiphertextBlob) :
    StatusOr (List Nat) :=
  ctx.Deserialize input >>= fun ct =>
    ctx.decryptStep ct >>= fun pt => ctx.Decode pt

/-! ## Call traces over a context, for the frame claim -/

/-- One public operation on an existing context. -/
inductive ContextOp where
  | encodeOp (v : List Nat)
  | decodeOp (pt : Plaintext)
  | encryptOp (v : List Nat)
  | decryptOp (blob : CiphertextBlob)
  | serializeOp (ct : Ciphertext)
  | deserializeOp (blob : CiphertextBlob)
  | serializeParamsOp

/-- The typed result an operation hands back. -/
inductive OpOutcome where
  | plaintextOut (r : StatusOr Plaintext)
  | vectorOut (r : StatusOr (List Nat))
  | blobOut (r : StatusOr CiphertextBlob)
  | ciphertextOut (r : StatusOr Ciphertext)
  | paramsOut (r : StatusOr ParamsBlob)

/-- Translated from the method bodies in `context.cpp`: each public
operation reads the owned state and assigns no member, so as a state
transformer it returns the context unchanged alongside its result. -/
def PIRContext.call (ctx : PIRContext) : ContextOp → OpOutcome × PIRContext
  | .encodeOp v => (.plaintextOut (ctx.Encode v), ctx)
  | .decodeOp pt => (.vectorOut (ctx.Decode pt), ctx)
  | .encryptOp v => (.blobOut (ctx.Encrypt v), ctx)
  | .decryptOp blob => (.vectorOut (ctx.Decrypt blob), ctx)
  | .serializeOp ct => (.blobOut (ctx.Serialize ct), ctx)
  | .deserializeOp blob => (.ciphertextOut (ctx.Deserialize blob), ctx)
  | .serializeParamsOp => (.paramsOut ctx.SerializeParams, ctx)

/-- The context state reached after a sequence of public operations. -/
def PIRContext.runOps (ctx : PIRContext) (ops : List ContextOp) : PIRContext :=
  ops.foldl (fun c op => (c.call op).2) ctx

/-- A result is a typed success or a typed `InvalidArgument` failure. -/
def typedOk {α : Type} (r : StatusOr α) : Prop :=
  (∃ a, r = .ok a) ∨ ∃ msg, r = .error (.invalidArgument msg)

/-! ## Helper lemmas: bit round-trips -/

theorem bitsOfNat_length : ∀ (w n : Nat), (bitsOfNat w n).length = w := by
  intro w
  induction w with
  | zero => intro n; rfl
  | succ w ih => intro n; simp [bitsOfNat, ih]

theorem bitsOfNat_natOfBits : ∀ bs : List Bool,
    bitsOfNat bs.length (natOfBits bs) = bs := by
  intro bs
  induction bs with
  | nil => rfl
  | cons b bs ih =>
    cases b with
    | false =>
      have h2 : 2 * natOfBits bs / 2 = natOfBits bs := by omega
      simp [natOfBits, bitsOfNat, h2, ih]
    | true =>
      have h1 : (1 + 2 * natOfBits bs) % 2 = 1 := by omega
      have h2 : (1 + 2 * natOfBits bs) / 2 = natOfBits bs := by omega
      simp [natOfBits, bitsOfNat, h1, h2, ih]

theorem natOfBits_bitsOfNat_of_lt : ∀ (w n : Nat), n < 2 ^ w →
    natOfBits (bitsOfNat w n) = n := by
  intro w
  induction w with
  | zero =>
    intro n h
    have hn : n = 0 := by simpa using h
    subst hn; rfl
  | succ w ih =>
    intro n h
    have hdiv : n / 2 < 2 ^ w := by
      have hp : 2 ^ (w + 1) = 2 ^ w * 2 := by ring
      omega
    have hrec := ih (n / 2) hdiv
    simp only [bitsOfNat, natOfBits, hrec]
    rcases Nat.mod_two_eq_zero_or_one n with h0 | h1
    · simp [h0]; omega
    · simp [h1]; omega

theorem natOfBits_of_all_false : ∀ bs : List Bool,
    (∀ b ∈ bs, b = false) → natOfBits bs = 0 := by
  intro bs
  induction bs with
  | nil => intro _; rfl
  | cons b bs ih =>
    intro h
    have hb : b = false := h b (List.mem_cons_self b bs)
    have hrest := ih fun x hx => h x (List.mem_cons_of_mem b hx)
    simp [natOfBits, hb, hrest]

/-! ## Helper lemmas: chunking -/

theorem chunkPad_nil (k : Nat) : chunkPad k [] = [] := by
  simp [chunkPad]

theorem chunkPad_mem_length (k : Nat) :
    (l : List Bool) → ∀ c ∈ chunkPad (k + 1) l, c.length = k + 1
  | [] => by simp [chunkPad]
  | x :: xs => by
    intro c hc
    simp only [chunkPad] at hc
    rcases List.mem_cons.mp hc with h | h
    · subst h
      simp only [List.length_append, List.length_take, List.length_replicate]
      omega
    · exact chunkPad_mem_length k ((x :: xs).drop (k + 1)) c h
termination_by l => l.length
decreasing_by simp; omega

theorem chunkPad_flatten (k : Nat) :
    (l : List Bool) →
      ∃ p, (chunkPad (k + 1) l).flatten = l ++ List.replicate p false
  | [] => ⟨0, by simp [chunkPad]⟩
  | x :: xs => by
    obtain ⟨p, hp⟩ := chunkPad_flatten k ((x :: xs).drop (k + 1))
    by_cases hlen : (x :: xs).length ≤ k + 1
    · have hd : (x :: xs).drop (k + 1) = [] := List.drop_eq_nil_of_le hlen
      have ht : (x :: xs).take (k + 1) = x :: xs := List.take_of_length_le hlen
      refine ⟨k + 1 - (x :: xs).length, ?_⟩
      simp only [chunkPad, List.flatten_cons, hd, chunkPad_nil, List.flatten_nil,
        List.append_nil, ht]
    · have hsplit := List.take_append_drop (k + 1) (x :: xs)
      refine ⟨p, ?_⟩
      have hz : k + 1 - (x :: xs).length = 0 := by
        simp only [List.length_cons, not_le] at hlen ⊢
        omega
      simp only [chunkPad, List.flatten_cons, hz, List.replicate_zero,
        List.append_nil, hp, ← List.append_assoc, hsplit]
termination_by l => l.length
decreasing_by simp; omega

theorem chunkPad_append_chunk (k : Nat) (c r : List Bool) (h : c.length = k + 1) :
    chunkPad (k + 1) (c ++ r) = c :: chunkPad (k + 1) r := by
  cases c with
  | nil => simp at h
  | cons x xs =>
    have hcons : (x :: xs) ++ r = x :: (xs ++ r) := rfl
    have hlen : (x :: (xs ++ r)).length = (k + 1) + r.length := by
      simp only [List.length_cons] at h ⊢
      simp only [List.length_append]
      omega
    have ht : (x :: (xs ++ r)).take (k + 1) = x :: xs := by
      rw [← hcons]; exact List.take_left' h
    have hd : (x :: (xs ++ r)).drop (k + 1) = r := by
      rw [← hcons]; exact List.drop_left' h
    have hz : k + 1 - (x :: (xs ++ r)).length = 0 := by omega
    rw [hcons]
    simp only [chunkPad, ht, hd, hz, List.replicate_zero, List.append_nil]

theorem chunkPad_all_false_map (k : Nat) :
    (l : List Bool) → (∀ b ∈ l, b = false) →
      ∃ q, (chunkPad (k + 1) l).map natOfBits = List.replicate q 0
  | [], _ => ⟨0, by simp [chunkPad]⟩
  | x :: xs, h => by
    obtain ⟨q, hq⟩ :=
      chunkPad_all_false_map k ((x :: xs).drop (k + 1))
        (fun b hb => h b (List.mem_of_mem_drop hb))
    refine ⟨q + 1, ?_⟩
    have hz : natOfBits ((x :: xs).take (k + 1) ++
        List.replicate (k + 1 - (x :: xs).length) false) = 0 := by
      apply natOfBits_of_all_false
      intro b hb
      rcases List.mem_append.mp hb with h1 | h1
      · exact h b (List.mem_of_mem_take h1)
      · exact List.eq_of_mem_replicate h1
    simp only [chunkPad, List.map_cons, hq, hz, List.replicate_succ]
termination_by l => l.length
decreasing_by simp; omega

theorem flatMap_bitsOfNat_map_natOfBits (w : Nat) :
    (cs : List (List Bool)) → (∀ c ∈ cs, c.length = w) →
      (cs.map natOfBits).flatMap (bitsOfNat w) = cs.flatten
  | [], _ => by simp
  | c :: cs, h => by
    have hc : bitsOfNat w (natOfBits c) = c := by
      rw [← h c (List.mem_cons_self c cs)]
      exact bitsOfNat_natOfBits c
    have ih := flatMap_bitsOfNat_map_natOfBits w cs
      (fun c hc => h c (List.mem_cons_of_mem _ hc))
    simp [hc, ih]

theorem chunkPad_flatMap_append (w : Nat) :
    (s : List Nat) → (r : List Bool) →
      chunkPad (w + 1) (s.flatMap (bitsOfNat (w + 1)) ++ r) =
        s.map (bitsOfNat (w + 1)) ++ chunkPad (w + 1) r
  | [], r => by simp
  | a :: s, r => by
    have hstep := chunkPad_append_chunk w (bitsOfNat (w + 1) a)
      (s.flatMap (bitsOfNat (w + 1)) ++ r) (bitsOfNat_length (w + 1) a)
    have ih := chunkPad_flatMap_append w s r
    simp only [List.flatMap_cons, List.map_cons, List.append_assoc, hstep, ih,
      List.cons_append]

/-! ## Claim C2: exact capacity boundary of the string codec -/

/-- C2: for every byte string of `L` bytes, the string codec's encode
succeeds iff `ceil(L*8/19)` (written `(L*8+18)/19`) is at most the ring
degree, and fails with an `InvalidArgument` error otherwise; with ring
degree 4096, every 9728-byte string encodes successfully and every
9729-byte string fails with `InvalidArgument`. -/
theorem claim_C2 :
    (∀ (deg : Nat) (s : List Nat),
        ((StringEncoder.mk deg 19).encode s).isOk = true ↔
          (s.length * 8 + 18) / 19 ≤ deg) ∧
    (∀ (deg : Nat) (s : List Nat), deg < (s.length * 8 + 18) / 19 →
        ∃ msg, (StringEncoder.mk deg 19).encode s =
          .error (.invalidArgument msg)) ∧
    (∀ s : List Nat, s.length = 9728 →
        ((StringEncoder.mk 4096 19).encode s).isOk = true) ∧
    (∀ s : List Nat, s.length = 9729 →
        ∃ msg, (StringEncoder.mk 4096 19).encode s =
          .error (.invalidArgument msg)) := by
  have main : ∀ (deg : Nat) (s : List Nat),
      ((StringEncoder.mk deg 19).encode s).isOk = true ↔
        (s.length * 8 + 18) / 19 ≤ deg := by
    intro deg s
    unfold StringEncoder.encode StringEncoder.numCoeffRequired
    by_cases h : (s.length * 8 + 18) / 19 ≤ deg
    · norm_num [h, Except.isOk, Except.toBool]
    · norm_num [h, Except.isOk, Except.toBool]
  have fail : ∀ (deg : Nat) (s : List Nat), deg < (s.length * 8 + 18) / 19 →
      ∃ msg, (StringEncoder.mk deg 19).encode s =
        .error (.invalidArgument msg) := by
    intro deg s h
    refine ⟨"string too large to fit in plaintext", ?_⟩
    unfold StringEncoder.encode StringEncoder.numCoeffRequired
    have hneg : ¬((s.length * 8 + (19 - 1)) / 19 ≤ deg) := by omega
    rw [if_neg hneg]
  refine ⟨main, fail, ?_, ?_⟩
  · intro s hlen
    exact (main 4096 s).mpr (by omega)
  · intro s hlen
    exact fail 4096 s (by omega)

/-- Witness for C2 at the concrete boundary inputs. -/
theorem claim_C2_witness :
    ((StringEncoder.mk 4096 19).encode (List.replicate 9728 0)).isOk = true ∧
    ∃ msg, (StringEncoder.mk 4096 19).encode (List.replicate 9729 0) =
      .error (.invalidArgument msg) :=
  ⟨claim_C2.2.2.1 (List.replicate 9728 0) (by rw [List.length_replicate]),
   claim_C2.2.2.2 (List.replicate 9729 0) (by rw [List.length_replicate])⟩

/-! ## Claim C3: string codec round-trip with zero-filled suffix -/

/-- C3: for every byte string `s` whose required coefficient count
`ceil(|s|*8/19)` is at most the ring degree, decoding the plaintext
produced by encode yields `s` followed by an all-zero suffix (so the
decoded string is at least `|s|` bytes long, starts with `s`, and its
remaining bytes are zero). -/
theorem claim_C3 (deg : Nat) (s : List Nat)
    (hbytes : ∀ b ∈ s, b < 256)
    (hcap : (s.length * 8 + 18) / 19 ≤ deg) :
    ∃ (pt : Plaintext) (z : Nat),
      (StringEncoder.mk deg 19).encode s = .ok pt ∧
      (StringEncoder.mk deg 19).decode pt = s ++ List.replicate z 0 := by
  have hcond : (StringEncoder.mk deg 19).numCoeffRequired s.length ≤ deg := by
    unfold StringEncoder.numCoeffRequired
    norm_num
    exact hcap
  have henc : (StringEncoder.mk deg 19).encode s =
      .ok ((chunkPad 19 (s.flatMap (bitsOfNat 8))).map natOfBits) := by
    unfold StringEncoder.encode
    rw [if_pos hcond]
  have hlen19 : ∀ c ∈ chunkPad 19 (s.flatMap (bitsOfNat 8)), c.length = 19 :=
    chunkPad_mem_length 18 (s.flatMap (bitsOfNat 8))
  have hflat : ((chunkPad 19 (s.flatMap (bitsOfNat 8))).map natOfBits).flatMap
      (bitsOfNat 19) = (chunkPad 19 (s.flatMap (bitsOfNat 8))).flatten :=
    flatMap_bitsOfNat_map_natOfBits 19 _ hlen19
  obtain ⟨p, hp⟩ := chunkPad_flatten 18 (s.flatMap (bitsOfNat 8))
  norm_num at hp
  have hchunks : chunkPad 8 (s.flatMap (bitsOfNat 8) ++ List.replicate p false) =
      s.map (bitsOfNat 8) ++ chunkPad 8 (List.replicate p false) := by
    have := chunkPad_flatMap_append 7 s (List.replicate p false)
    norm_num at this
    exact this
  obtain ⟨q, hq⟩ := chunkPad_all_false_map 7 (List.replicate p false)
    (fun b hb => List.eq_of_mem_replicate hb)
  norm_num at hq
  have hmap : (s.map (bitsOfNat 8)).map natOfBits = s := by
    rw [List.map_map]
    have hcg : ∀ b ∈ s, (natOfBits ∘ bitsOfNat 8) b = id b := by
      intro b hb
      simp only [Function.comp_apply, id_eq]
      exact natOfBits_bitsOfNat_of_lt 8 b
        (lt_of_lt_of_le (hbytes b hb) (by norm_num))
    rw [List.map_congr_left hcg, List.map_id]
  refine ⟨_, q, henc, ?_⟩
  unfold StringEncoder.decode
  rw [hflat, hp, hchunks, List.map_append, hmap, hq]

/-- Witness for C3 at a concrete two-byte string. -/
theorem claim_C3_witness :
    ∃ (pt : Plaintext) (z : Nat),
      (StringEncoder.mk 4096 19).encode [72, 105] = .ok pt ∧
      (StringEncoder.mk 4096 19).decode pt = [72, 105] ++ List.replicate z 0 :=
  claim_C3 4096 [72, 105] (by decide) (by norm_num)

/-! ## Claim C1: every public operation returns a typed result -/

theorem typedOk_of_result {α : Type} (r : StatusOr α) : typedOk r := by
  cases r with
  | error e => cases e with | invalidArgument msg => exact .inr ⟨msg, rfl⟩
  | ok a => exact .inl ⟨a, rfl⟩

/-- C1: every public operation of the context returns a typed
success-or-failure result, and any fault thrown by the backend during the
operation is caught at that operation's boundary and converted into the
typed `InvalidArgument` error rather than propagated. -/
theorem claim_C1 (ctx : PIRContext) (v : List Nat) (pt : Plaintext)
    (ct : Ciphertext) (cblob : CiphertextBlob) (pblob : ParamsBlob) (n : Nat) :
    typedOk (ctx.Encode v) ∧ typedOk (ctx.Decode pt) ∧
    typedOk (ctx.Encrypt v) ∧ typedOk (ctx.Decrypt cblob) ∧
    typedOk (ctx.Serialize ct) ∧ typedOk (ctx.Deserialize cblob) ∧
    typedOk ctx.SerializeParams ∧
    typedOk (PIRContext.CreateFromParams pblob n) ∧
    (∀ e, sealBatchEncode ctx.parms v = .error e →
      ctx.Encode v = .error (.invalidArgument e.what)) ∧
    (∀ e, sealCiphertextLoad ctx.parms cblob = .error e →
      ctx.Deserialize cblob = .error (.invalidArgument e.what)) ∧
    (∀ e, sealParamsLoad pblob = .error e →
      PIRContext.CreateFromParams pblob n = .error (.invalidArgument e.what)) := by
  refine ⟨typedOk_of_result _, typedOk_of_result _, typedOk_of_result _,
    typedOk_of_result _, typedOk_of_result _, typedOk_of_result _,
    typedOk_of_result _, typedOk_of_result _, ?_, ?_, ?_⟩
  · intro e he
    simp [PIRContext.Encode, he]
  · intro e he
    simp [PIRContext.Deserialize, he]
  · intro e he
    simp [PIRContext.CreateFromParams, deserializeParams, he]

/-- Witness for C1: a backend fault on the empty vector is converted into
the typed error at the `Encode` boundary. -/
theorem claim_C1_witness :
    (PIRContext.Create 10).Encode [] =
      .error (.invalidArgument "input vector is empty") :=
  (claim_C1 (PIRContext.Create 10) [] [] ⟨generateEncryptionParams 4096, []⟩
      (.malformed "x") (.malformed "x") 0).2.2.2.2.2.2.2.2.1
    ⟨"input vector is empty"⟩ rfl

/-! ## Claim C4: batch encode/decode round-trip -/

theorem Encode_ok_of_inrange (ctx : PIRContext) (v : List Nat)
    (hlo : 1 ≤ v.length) (hhi : v.length ≤ ctx.parms.polyModulusDegree)
    (hval : ∀ x ∈ v, x < ctx.parms.plainModulus) :
    ctx.Encode v = .ok v := by
  have hne : v.isEmpty = false := by
    cases v with
    | nil => simp at hlo
    | cons a l => rfl
  have hlen : ¬(ctx.parms.polyModulusDegree < v.length) := by omega
  have hmap : v.map (· % ctx.parms.plainModulus) = v := by
    have hcg : ∀ x ∈ v, x % ctx.parms.plainModulus = id x :=
      fun x hx => Nat.mod_eq_of_lt (hval x hx)
    rw [List.map_congr_left hcg, List.map_id]
  simp [PIRContext.Encode, sealBatchEncode, hne, hlen, hmap]

theorem Decode_ok (ctx : PIRContext) (pt : Plaintext) :
    ctx.Decode pt = .ok pt := by
  simp [PIRContext.Decode, sealBatchDecode]

/-- C4: for every numeric vector of length between 1 and the ring degree
whose elements are below the plaintext modulus, `Encode` succeeds and
`Decode` of the resulting plaintext returns the original vector. -/
theorem claim_C4 (ctx : PIRContext) (v : List Nat)
    (hlo : 1 ≤ v.length) (hhi : v.length ≤ ctx.parms.polyModulusDegree)
    (hval : ∀ x ∈ v, x < ctx.parms.plainModulus) :
    ∃ pt, ctx.Encode v = .ok pt ∧ ctx.Decode pt = .ok v :=
  ⟨v, Encode_ok_of_inrange ctx v hlo hhi hval, Decode_ok ctx v⟩

/-- Witness for C4 at a concrete vector on the default context. -/
theorem claim_C4_witness :
    ∃ pt, (PIRContext.Create 10).Encode [1, 2, 3] = .ok pt ∧
      (PIRContext.Create 10).Decode pt = .ok [1, 2, 3] :=
  claim_C4 (PIRContext.Create 10) [1, 2, 3] (by decide) (by decide) (by decide)

/-! ## Claim C5: encrypt/decrypt round-trip on one context -/

/-- C5: for every in-range numeric vector, `Encrypt` on a constructed
context succeeds and `Decrypt` of the produced blob on the same context
returns the vector. -/
theorem claim_C5 (parms : EncryptionParameters) (n : Nat) (v : List Nat)
    (hlo : 1 ≤ v.length) (hhi : v.length ≤ parms.polyModulusDegree)
    (hval : ∀ x ∈ v, x < parms.plainModulus) :
    ∃ blob, (PIRContext.init parms n).Encrypt v = .ok blob ∧
      (PIRContext.init parms n).Decrypt blob = .ok v := by
  have henc : (PIRContext.init parms n).Encode v = .ok v :=
    Encode_ok_of_inrange (PIRContext.init parms n) v hlo hhi hval
  refine ⟨.ct parms v, ?_, ?_⟩
  · unfold PIRContext.Encrypt
    rw [henc]
    simp [sealEncrypt, PIRContext.Serialize, sealCiphertextSave,
      PIRContext.init, keyGen]
  · simp [PIRContext.Decrypt, PIRContext.Deserialize, sealCiphertextLoad,
      PIRContext.init, keyGen, sealDecrypt, PIRContext.Decode, sealBatchDecode]

/-- Witness for C5 at a concrete vector on freshly generated default
parameters. -/
theorem claim_C5_witness :
    ∃ blob, (PIRContext.init (generateEncryptionParams 4096) 7).Encrypt [5] =
        .ok blob ∧
      (PIRContext.init (generateEncryptionParams 4096) 7).Decrypt blob =
        .ok [5] :=
  claim_C5 (generateEncryptionParams 4096) 7 [5] (by decide) (by decide)
    (by decide)

/-! ## Claim C6: Encode error cases -/

/-- C6: `Encode` fails with an `InvalidArgument` error whenever the input
vector is empty or exceeds `ring_degree` elements (the backend encoder's
constraints), and in every case a backend fault is caught and translated
into that error rather than propagated. -/
theorem claim_C6 (ctx : PIRContext) (v : List Nat) :
    ((v = [] ∨ ctx.parms.polyModulusDegree < v.length) →
      ∃ msg, ctx.Encode v = .error (.invalidArgument msg)) ∧
    (∀ e, sealBatchEncode ctx.parms v = .error e →
      ctx.Encode v = .error (.invalidArgument e.what)) := by
  constructor
  · intro h
    rcases h with h | h
    · subst h
      exact ⟨"input vector is empty", by simp [PIRContext.Encode, sealBatchEncode]⟩
    · refine ⟨"values_matrix size is too large", ?_⟩
      have hne : v.isEmpty = false := by
        cases v with
        | nil => simp at h
        | cons a l => rfl
      simp [PIRContext.Encode, sealBatchEncode, hne, h]
  · intro e he
    simp [PIRContext.Encode, he]

/-- Witness for C6: the empty vector is rejected with `InvalidArgument`. -/
theorem claim_C6_witness :
    ∃ msg, (PIRContext.Create 10).Encode [] = .error (.invalidArgument msg) :=
  (claim_C6 (PIRContext.Create 10) []).1 (Or.inl rfl)

/-! ## Claim C7: CreateFromParameters -/

/-- C7: `CreateFromParams` returns an `InvalidArgument` error on a
malformed parameter blob, and on a well-formed blob returns a context
holding the recovered parameters, a key pair freshly generated against
them, and the supplied database size. -/
theorem claim_C7 (blob : ParamsBlob) (n : Nat) :
    (∀ msg, blob = .malformed msg →
      PIRContext.CreateFromParams blob n = .error (.invalidArgument msg)) ∧
    (∀ parms, blob = .wellFormed parms →
      ∃ ctx, PIRContext.CreateFromParams blob n = .ok ctx ∧
        ctx.parms = parms ∧
        ctx.publicKey = (keyGen parms).publicKey ∧
        ctx.secretKey = (keyGen parms).secretKey ∧
        ctx.DBSize = n) := by
  constructor
  · intro msg h
    subst h
    simp [PIRContext.CreateFromParams, deserializeParams, sealParamsLoad]
  · intro parms h
    subst h
    refine ⟨PIRContext.init parms n, ?_, rfl, rfl, rfl, rfl⟩
    simp [PIRContext.CreateFromParams, deserializeParams, sealParamsLoad]

/-- Witness for C7 at a concrete malformed and a concrete well-formed
blob. -/
theorem claim_C7_witness :
    PIRContext.CreateFromParams (.malformed "corrupt bytes") 3 =
      .error (.invalidArgument "corrupt bytes") ∧
    ∃ ctx, PIRContext.CreateFromParams
        (.wellFormed (generateEncryptionParams 4096)) 3 = .ok ctx ∧
      ctx.parms = generateEncryptionParams 4096 ∧
      ctx.publicKey = (keyGen (generateEncryptionParams 4096)).publicKey ∧
      ctx.secretKey = (keyGen (generateEncryptionParams 4096)).secretKey ∧
      ctx.DBSize = 3 :=
  ⟨(claim_C7 (.malformed "corrupt bytes") 3).1 "corrupt bytes" rfl,
   (claim_C7 (.wellFormed (generateEncryptionParams 4096)) 3).2
     (generateEncryptionParams 4096) rfl⟩

/-! ## Claim C8: Encrypt and Decrypt as staged compositions -/

/-- C8: `Encrypt` equals the sequential composition of `Encode`, the
encryption step and `Serialize`, and `Decrypt` equals the composition of
`Deserialize`, the decryption step and `Decode`; a failure at any stage
short-circuits the rest and is returned unchanged. -/
theorem claim_C8 (ctx : PIRContext) (v : List Nat) (blob : CiphertextBlob) :
    ctx.Encrypt v = ctx.EncryptSpec v ∧
    ctx.Decrypt blob = ctx.DecryptSpec blob ∧
    (∀ e, ctx.Encode v = .error e → ctx.Encrypt v = .error e) ∧
    (∀ pt e, ctx.Encode v = .ok pt → ctx.encryptStep pt = .error e →
      ctx.Encrypt v = .error e) ∧
    (∀ e, ctx.Deserialize blob = .error e → ctx.Decrypt blob = .error e) ∧
    (∀ ct e, ctx.Deserialize blob = .ok ct → ctx.decryptStep ct = .error e →
      ctx.Decrypt blob = .error e) := by
  refine ⟨?_, ?_, ?_, ?_, ?_, ?_⟩
  · unfold PIRContext.Encrypt PIRContext.EncryptSpec PIRContext.encryptStep
    cases ctx.Encode v with
    | error st => rfl
    | ok pt =>
      show (match sealEncrypt ctx.publicKey pt with
          | .error e => .error (.invalidArgument e.what)
          | .ok ct => ctx.Serialize ct) =
        ((match sealEncrypt ctx.publicKey pt with
          | .error e => (.error (.invalidArgument e.what) : StatusOr Ciphertext)
          | .ok ct => .ok ct) >>= fun ct => ctx.Serialize ct)
      cases sealEncrypt ctx.publicKey pt with
      | error e => rfl
      | ok ct => rfl
  · unfold PIRContext.Decrypt PIRContext.DecryptSpec PIRContext.decryptStep
    cases ctx.Deserialize blob with
    | error st => rfl
    | ok ct =>
      show (match sealDecrypt ctx.secretKey ct with
          | .error e => .error (.invalidArgument e.what)
          | .ok pt => ctx.Decode pt) =
        ((match sealDecrypt ctx.secretKey ct with
          | .error e => (.error (.invalidArgument e.what) : StatusOr Plaintext)
          | .ok pt => .ok pt) >>= fun pt => ctx.Decode pt)
      cases sealDecrypt ctx.secretKey ct with
      | error e => rfl
      | ok pt => rfl
  · intro e he
    unfold PIRContext.Encrypt
    rw [he]
  · intro pt e hok he
    unfold PIRContext.Encrypt
    rw [hok]
    unfold PIRContext.encryptStep at he
    cases hse : sealEncrypt ctx.publicKey pt with
    | error e2 =>
      rw [hse] at he
      show (match sealEncrypt ctx.publicKey pt with
          | .error e =>
            (.error (.invalidArgument e.what) : StatusOr CiphertextBlob)
          | .ok ct => ctx.Serialize ct) = .error e
      rw [hse]
      simpa using he
    | ok ct =>
      rw [hse] at he
      simp at he
  · intro e he
    unfold PIRContext.Decrypt
    rw [he]
  · intro ct e hok he
    unfold PIRContext.Decrypt
    rw [hok]
    unfold PIRContext.decryptStep at he
    cases hsd : sealDecrypt ctx.secretKey ct with
    | error e2 =>
      rw [hsd] at he
      show (match sealDecrypt ctx.secretKey ct with
          | .error e =>
            (.error (.invalidArgument e.what) : StatusOr (List Nat))
          | .ok pt => ctx.Decode pt) = .error e
      rw [hsd]
      simpa using he
    | ok pt =>
      rw [hsd] at he
      simp at he

/-- Witness for C8: a failing `Deserialize` stage short-circuits `Decrypt`
and its error is returned unchanged. -/
theorem claim_C8_witness :
    (PIRContext.Create 10).Decrypt (.malformed "bad blob") =
      .error (.invalidArgument "bad blob") :=
  (claim_C8 (PIRContext.Create 10) [] (.malformed "bad blob")).2.2.2.2.1
    (.invalidArgument "bad blob") rfl

/-! ## Claim C9: parameter mismatch across serialization boundaries -/

/-- C9: a ciphertext blob produced by `Serialize` or `Encrypt` records the
parameter set it was produced under, and `Deserialize` (and hence
`Decrypt`) on a context with different parameters returns an
`InvalidArgument` error, never a silently misinterpreted value. -/
theorem claim_C9 :
    (∀ (ctx : PIRContext) (parms : EncryptionParameters) (payload : Plaintext),
        parms ≠ ctx.parms →
        (∃ m, ctx.Deserialize (.ct parms payload) =
          .error (.invalidArgument m)) ∧
        (∃ m, ctx.Decrypt (.ct parms payload) =
          .error (.invalidArgument m))) ∧
    (∀ (ctx : PIRContext) (ct : Ciphertext) (blob : CiphertextBlob),
        ctx.Serialize ct = .ok blob → blob = .ct ct.parms ct.payload) ∧
    (∀ (parms : EncryptionParameters) (n : Nat) (v : List Nat)
        (blob : CiphertextBlob),
        (PIRContext.init parms n).Encrypt v = .ok blob →
        ∃ payload, blob = .ct parms payload) ∧
    (∀ (parms1 parms2 : EncryptionParameters) (n1 n2 : Nat) (v : List Nat)
        (blob : CiphertextBlob),
        parms1 ≠ parms2 →
        (PIRContext.init parms1 n1).Encrypt v = .ok blob →
        (∃ m, (PIRContext.init parms2 n2).Deserialize blob =
          .error (.invalidArgument m)) ∧
        (∃ m, (PIRContext.init parms2 n2).Decrypt blob =
          .error (.invalidArgument m))) := by
  have hdeser : ∀ (ctx : PIRContext) (parms : EncryptionParameters)
      (payload : Plaintext), parms ≠ ctx.parms →
      ctx.Deserialize (.ct parms payload) =
        .error (.invalidArgument
          "ciphertext data is invalid for encryption parameters") := by
    intro ctx parms payload hne
    simp [PIRContext.Deserialize, sealCiphertextLoad, hne]
  have hmm : ∀ (ctx : PIRContext) (parms : EncryptionParameters)
      (payload : Plaintext), parms ≠ ctx.parms →
      (∃ m, ctx.Deserialize (.ct parms payload) =
        .error (.invalidArgument m)) ∧
      (∃ m, ctx.Decrypt (.ct parms payload) =
        .error (.invalidArgument m)) := by
    intro ctx parms payload hne
    refine ⟨⟨_, hdeser ctx parms payload hne⟩,
      ⟨"ciphertext data is invalid for encryption parameters", ?_⟩⟩
    unfold PIRContext.Decrypt
    rw [hdeser ctx parms payload hne]
  have hser : ∀ (ctx : PIRContext) (ct : Ciphertext) (blob : CiphertextBlob),
      ctx.Serialize ct = .ok blob → blob = .ct ct.parms ct.payload := by
    intro ctx ct blob h
    simpa [PIRContext.Serialize, sealCiphertextSave] using h.symm
  have henc : ∀ (parms : EncryptionParameters) (n : Nat) (v : List Nat)
      (blob : CiphertextBlob),
      (PIRContext.init parms n).Encrypt v = .ok blob →
      ∃ payload, blob = .ct parms payload := by
    intro parms n v blob h
    unfold PIRContext.Encrypt at h
    cases he : (PIRContext.init parms n).Encode v with
    | error st => rw [he] at h; simp at h
    | ok pt =>
      rw [he] at h
      simp only [sealEncrypt] at h
      have := hser (PIRContext.init parms n) ⟨parms, pt⟩ blob
      simp only [PIRContext.init, keyGen] at h
      exact ⟨pt, (this h).symm ▸ rfl⟩
  refine ⟨hmm, hser, henc, ?_⟩
  intro parms1 parms2 n1 n2 v blob hne henc2
  obtain ⟨payload, hblob⟩ := henc parms1 n1 v blob henc2
  subst hblob
  exact hmm (PIRContext.init parms2 n2) parms1 payload (by simp [PIRContext.init]; exact hne)

/-- Witness for C9: a blob encrypted under ring degree 4096 is rejected by
a context built at ring degree 2048. -/
theorem claim_C9_witness :
    (∃ m, (PIRContext.init (generateEncryptionParams 2048) 1).Deserialize
        (.ct (generateEncryptionParams 4096) [1]) =
      .error (.invalidArgument m)) ∧
    (∃ m, (PIRContext.init (generateEncryptionParams 2048) 1).Decrypt
        (.ct (generateEncryptionParams 4096) [1]) =
      .error (.invalidArgument m)) :=
  (claim_C9.2.2.2 (generateEncryptionParams 4096) (generateEncryptionParams 2048)
    1 1 [1] (.ct (generateEncryptionParams 4096) [1]) (by decide) (by rfl))

/-! ## Claim C10: the context's state is never mutated after construction -/

theorem call_preserves_state (ctx : PIRContext) (op : ContextOp) :
    (ctx.call op).2 = ctx := by
  cases op <;> rfl

theorem runOps_preserves_state :
    ∀ (ops : List ContextOp) (ctx : PIRContext), ctx.runOps ops = ctx := by
  intro ops
  induction ops with
  | nil => intro ctx; rfl
  | cons op ops ih =>
    intro ctx
    have hstep : PIRContext.runOps ctx (op :: ops) =
        PIRContext.runOps (ctx.call op).2 ops := rfl
    rw [hstep, call_preserves_state, ih]

/-- C10: for every constructed context and every sequence of public
operations performed after construction, the context's scheme parameters,
key pair and recorded database size are unchanged; in particular `DBSize`
always returns the database size supplied at construction. -/
theorem claim_C10 (parms : EncryptionParameters) (n : Nat)
    (ops : List ContextOp) :
    (PIRContext.init parms n).runOps ops = PIRContext.init parms n ∧
    ((PIRContext.init parms n).runOps ops).parms = parms ∧
    ((PIRContext.init parms n).runOps ops).DBSize = n := by
  refine ⟨runOps_preserves_state ops _, ?_, ?_⟩ <;>
    rw [runOps_preserves_state ops _] <;> rfl

end PIR
